import Mathlib

/-!
Shallow embedding of the `ping` acoustic codec and detection pipeline.

Sources embedded here:
* `src/core/mapping.js`  — frequency band table, `getSubmarineFrequency`,
  `decodeFrequency`, `hueToFrequency`.
* `src/audio/receiver.js` — `findFrequencyPeaks`, `onAudioFrame`,
  `analyzeSignalPattern`, `analyzeAmplitudePattern`, `matchSignalPattern`,
  `matchesTimingPattern`, `getAverageFrequency`, `normalizeStrength`, and the
  `pingEmitted` listener.
* `src/audio/emitter.js`  — `SUBMARINE_PATTERNS` (timing table) and `emitPing`.

Conventions: JavaScript numbers are modelled as exact rationals (`ℚ`);
millisecond timestamps (`Date.now()`) as integers (`ℤ`); `null` as `Option`;
JS string tags (model ids, amplitude-pattern names) as `String`.
`Math.round` rounds half toward `+∞`, which is `⌊x + 1/2⌋`.
`Array.prototype.sort` with a consistent comparator is a stable sort, which is
exactly `List.insertionSort r` with `r x y := (compare x y ≤ 0)`.

The arithmetic on `ℚ` is written with the wrappers `qadd`, `qsub`, `qmul`,
`qdiv`, `qmax`, `qmin`, `qabs` below.  They are provably equal to `+`, `-`,
`*`, `/`, `max`, `min`, `|·|` (see the `..._eq` lemmas), but are phrased with
`Rat.divInt`, whose evaluation is not blocked by the `@[irreducible]` markers
on `Rat.add` etc., so that concrete runs of the embedded program can be
checked by `decide`.
-/

namespace Ping

/-- JavaScript `+` on numbers (exact rational addition, computable form). -/
def qadd (a b : ℚ) : ℚ := Rat.divInt (a.num * b.den + b.num * a.den) (a.den * b.den)

/-- JavaScript `-` on numbers (exact rational subtraction, computable form). -/
def qsub (a b : ℚ) : ℚ := Rat.divInt (a.num * b.den - b.num * a.den) (a.den * b.den)

/-- JavaScript `*` on numbers (exact rational multiplication, computable form). -/
def qmul (a b : ℚ) : ℚ := Rat.divInt (a.num * b.num) (a.den * b.den)

/-- JavaScript `/` on numbers (exact rational division, computable form). -/
def qdiv (a b : ℚ) : ℚ := Rat.divInt (a.num * b.den) (a.den * b.num)

/-- JavaScript `Math.max` on two numbers. -/
def qmax (a b : ℚ) : ℚ := if a ≤ b then b else a

/-- JavaScript `Math.min` on two numbers. -/
def qmin (a b : ℚ) : ℚ := if a ≤ b then a else b

/-- JavaScript `Math.abs`. -/
def qabs (a : ℚ) : ℚ := if a < 0 then -a else a

theorem den_cast_ne_zero (a : ℚ) : ((a.den : ℚ)) ≠ 0 := by
  exact_mod_cast a.den_nz

theorem num_eq_mul_den (a : ℚ) : (a.num : ℚ) = a * a.den :=
  (div_eq_iff (den_cast_ne_zero a)).mp (Rat.num_div_den a)

theorem qadd_eq (a b : ℚ) : qadd a b = a + b := by
  rw [qadd, Rat.divInt_eq_div]
  push_cast
  rw [num_eq_mul_den a, num_eq_mul_den b,
    div_eq_iff (mul_ne_zero (den_cast_ne_zero a) (den_cast_ne_zero b))]
  ring

theorem qsub_eq (a b : ℚ) : qsub a b = a - b := by
  rw [qsub, Rat.divInt_eq_div]
  push_cast
  rw [num_eq_mul_den a, num_eq_mul_den b,
    div_eq_iff (mul_ne_zero (den_cast_ne_zero a) (den_cast_ne_zero b))]
  ring

theorem qmul_eq (a b : ℚ) : qmul a b = a * b := by
  rw [qmul, Rat.divInt_eq_div]
  push_cast
  rw [num_eq_mul_den a, num_eq_mul_den b,
    div_eq_iff (mul_ne_zero (den_cast_ne_zero a) (den_cast_ne_zero b))]
  ring

theorem qdiv_eq (a b : ℚ) : qdiv a b = a / b := by
  rcases eq_or_ne b 0 with rfl | hb
  · simp [qdiv, Rat.divInt_eq_div]
  · have hbnum : ((b.num : ℚ)) ≠ 0 := by
      rw [num_eq_mul_den b]
      exact mul_ne_zero hb (den_cast_ne_zero b)
    rw [qdiv, Rat.divInt_eq_div]
    push_cast
    rw [num_eq_mul_den a, num_eq_mul_den b,
      div_eq_div_iff (mul_ne_zero (den_cast_ne_zero a)
        (mul_ne_zero hb (den_cast_ne_zero b))) hb]
    ring

theorem qmax_eq (a b : ℚ) : qmax a b = max a b := by
  rw [qmax, max_def]

theorem qmin_eq (a b : ℚ) : qmin a b = min a b := by
  rw [qmin, min_def]

theorem qabs_eq (a : ℚ) : qabs a = |a| := by
  rcases lt_or_le a 0 with h | h
  · rw [qabs, if_pos h, abs_of_neg h]
  · rw [qabs, if_neg (not_lt.mpr h), abs_of_nonneg h]

/-- JavaScript `Math.round`: round half up (toward `+∞`), i.e. `⌊x + 1/2⌋`.
Stated with `Rat.floor` so that it evaluates inside the kernel. -/
def jround (q : ℚ) : ℤ := (qadd q (qdiv 1 2)).floor

/-- The computable `jround` is `⌊· + 1/2⌋`. -/
theorem jround_eq_floor (q : ℚ) : jround q = ⌊q + 1/2⌋ := by
  rw [jround, qadd_eq, qdiv_eq, Rat.floor_def', Rat.floor_def]

/-- One frequency band (`{ min, max }` in `SUBMARINE_FREQUENCY_RANGES`). -/
structure FreqRange where
  min : ℚ
  max : ℚ
deriving DecidableEq

/-- The band table of `mapping.js` in `Object.entries` (insertion) order. -/
def SUBMARINE_FREQUENCY_RANGES : List (String × FreqRange) :=
  [("military", ⟨800, 900⟩),
   ("research", ⟨1000, 1100⟩),
   ("robotic",  ⟨1200, 1300⟩),
   ("tourist",  ⟨1400, 1500⟩)]

/-- `getSubmarineFrequency(modelId, hue)` from `mapping.js`: linear
interpolation of the hue into the model's band
(`range.min + (hue/255) * (range.max - range.min)`), rounded to 0.1 Hz
precision; ids absent from the table fall back to the research band's
minimum.  This models the indexing `SUBMARINE_FREQUENCY_RANGES[modelId]`
for own keys and for absent keys (`undefined`); the full model including
the `Object.prototype` inheritance is `getSubmarineFrequencyJs` further
down, and the two agree away from the prototype's member names
(`getSubmarineFrequencyJs_agrees`). -/
def getSubmarineFrequency (modelId : String) (hue : ℚ) : ℚ :=
  match SUBMARINE_FREQUENCY_RANGES.find? (fun p => p.1 == modelId) with
  | none => 1000
  | some (_, range) =>
      qdiv (jround (qmul (qadd range.min (qmul (qdiv hue 255) (qsub range.max range.min))) 10)) 10

/-- Decoded result (`{ submarineType, hue, frequency }`). -/
structure DecodeResult where
  submarineType : String
  hue : ℤ
  frequency : ℚ
deriving DecidableEq

/-- The hue computed by `decodeFrequency` for a band: invert the
interpolation (`(frequency - range.min) / (range.max - range.min)`), scale to
`[0, 255]`, clamp, round. -/
def decodeHue (frequency : ℚ) (range : FreqRange) : ℤ :=
  jround (qmax 0 (qmin 255 (qmul (qdiv (qsub frequency range.min) (qsub range.max range.min)) 255)))

/-- The `for (const [modelId, range] of Object.entries(...))` loop of
`decodeFrequency`. -/
def decodeFrequencyGo (frequency tolerance : ℚ) :
    List (String × FreqRange) → Option DecodeResult
  | [] => none
  | (modelId, range) :: rest =>
      if qsub range.min tolerance ≤ frequency ∧ frequency ≤ qadd range.max tolerance then
        some ⟨modelId, decodeHue frequency range, frequency⟩
      else
        decodeFrequencyGo frequency tolerance rest

/-- `decodeFrequency(frequency, tolerance)` from `mapping.js`. -/
def decodeFrequency (frequency : ℚ) (tolerance : ℚ) : Option DecodeResult :=
  decodeFrequencyGo frequency tolerance SUBMARINE_FREQUENCY_RANGES

/-- `hueToFrequency(hue)` from `mapping.js` (default submarine type
`'research'`). -/
def hueToFrequency (hue : ℚ) : ℚ := getSubmarineFrequency "research" hue

/-- The four configured identities, in table order. -/
def submarineTypes : List String := ["military", "research", "robotic", "tourist"]

set_option maxRecDepth 16000 in
/-- Exact form of the round trip: for every configured identity and every
integer hue, decoding the encoded frequency recovers the identity and the
hue on the nose (checked by evaluation over all 4 × 256 cases). -/
theorem roundtrip_exact : ∀ id ∈ submarineTypes, ∀ hue : ℕ, hue < 256 →
    decodeFrequency (getSubmarineFrequency id hue) 5 =
      some ⟨id, hue, getSubmarineFrequency id hue⟩ := by decide

/-- Modelled on the spec's wording for `decode(frequency, tolerance)`: the
first band (in table order) whose `[min - tolerance, max + tolerance]`
window contains the frequency wins, and the colour is the inverse
interpolation, clamped to `[0, 255]` and rounded. -/
def decodeSpec (f t : ℚ) : Option DecodeResult :=
  (SUBMARINE_FREQUENCY_RANGES.find? (fun p =>
      decide (p.2.min - t ≤ f ∧ f ≤ p.2.max + t))).map
    (fun p => ⟨p.1, ⌊max 0 (min 255 ((f - p.2.min) / (p.2.max - p.2.min) * 255)) + 1/2⌋, f⟩)

theorem decodeHue_eq_floor (f : ℚ) (rg : FreqRange) :
    decodeHue f rg = ⌊max 0 (min 255 ((f - rg.min) / (rg.max - rg.min) * 255)) + 1/2⌋ := by
  rw [decodeHue, jround_eq_floor, qmax_eq, qmin_eq, qmul_eq, qdiv_eq, qsub_eq, qsub_eq]

theorem decodeHue_nonneg (f : ℚ) (rg : FreqRange) : 0 ≤ decodeHue f rg := by
  rw [decodeHue_eq_floor]
  refine Int.le_floor.mpr ?_
  have h0 : (0 : ℚ) ≤ max 0 (min 255 ((f - rg.min) / (rg.max - rg.min) * 255)) :=
    le_max_left _ _
  push_cast
  linarith

theorem decodeHue_le (f : ℚ) (rg : FreqRange) : decodeHue f rg ≤ 255 := by
  rw [decodeHue_eq_floor]
  have h1 : max 0 (min 255 ((f - rg.min) / (rg.max - rg.min) * 255)) ≤ 255 :=
    max_le (by norm_num) (min_le_left _ _)
  have h2 : ⌊max 0 (min 255 ((f - rg.min) / (rg.max - rg.min) * 255)) + 1/2⌋ < 256 := by
    refine Int.floor_lt.mpr ?_
    push_cast
    linarith
  omega

theorem decodeFrequencyGo_eq_find (f t : ℚ) (bands : List (String × FreqRange)) :
    decodeFrequencyGo f t bands =
      (bands.find? (fun p => decide (p.2.min - t ≤ f ∧ f ≤ p.2.max + t))).map
        (fun p => ⟨p.1, decodeHue f p.2, f⟩) := by
  induction bands with
  | nil => rfl
  | cons hd tl ih =>
      obtain ⟨m, rg⟩ := hd
      rw [decodeFrequencyGo, qsub_eq, qadd_eq]
      by_cases h : rg.min - t ≤ f ∧ f ≤ rg.max + t
      · rw [if_pos h, List.find?_cons_of_pos _ (by simpa using h), Option.map_some']
      · rw [if_neg h, List.find?_cons_of_neg _ (by simpa using h), ih]

/-- C2: `decodeFrequency` returns a result iff the frequency lies within
`[min - tolerance, max + tolerance]` of some configured band; the first
matching band wins with the clamped inverse-interpolated hue (refinement of
the spec-worded `decodeSpec`), the returned hue always lies in `[0, 255]`,
and out-of-band frequencies yield `none` rather than an error. -/
theorem C2_decode_characterization : ∀ f t : ℚ,
    decodeFrequency f t = decodeSpec f t ∧
    ((decodeFrequency f t).isSome ↔
      ∃ p ∈ SUBMARINE_FREQUENCY_RANGES, p.2.min - t ≤ f ∧ f ≤ p.2.max + t) ∧
    (∀ r, decodeFrequency f t = some r → 0 ≤ r.hue ∧ r.hue ≤ 255) := by
  intro f t
  have hgo := decodeFrequencyGo_eq_find f t SUBMARINE_FREQUENCY_RANGES
  refine ⟨?_, ?_, ?_⟩
  · rw [decodeFrequency, hgo, decodeSpec]
    congr 1
    funext p
    rw [decodeHue_eq_floor]
  · rw [decodeFrequency, hgo]
    simp only [Option.isSome_map']
    rw [List.find?_isSome]
    simp
  · intro r hr
    rw [decodeFrequency, hgo] at hr
    obtain ⟨p, _hp, hpr⟩ := Option.map_eq_some'.mp hr
    rw [← hpr]
    exact ⟨decodeHue_nonneg f p.2, decodeHue_le f p.2⟩

/-- C1: for every identity in `{military, research, robotic, tourist}` and
every integer hue in `[0, 255]`, decoding the encoded frequency with the
default tolerance 5 recovers the identity exactly and the hue within ±2
units (in fact exactly). -/
theorem C1_encode_decode_roundtrip : ∀ id ∈ submarineTypes, ∀ hue : ℕ, hue < 256 →
    ∃ r, decodeFrequency (getSubmarineFrequency id hue) 5 = some r ∧
      r.submarineType = id ∧ |r.hue - (hue : ℤ)| ≤ 2 := by
  intro id hid hue hh
  exact ⟨_, roundtrip_exact id hid hue hh, rfl, by simp⟩

/-- Witness for C1 at identity `military`, hue 200. -/
theorem C1_encode_decode_roundtrip_witness :
    ∃ r, decodeFrequency (getSubmarineFrequency "military" 200) 5 = some r ∧
      r.submarineType = "military" ∧ |r.hue - (200 : ℤ)| ≤ 2 :=
  C1_encode_decode_roundtrip "military" (by decide) 200 (by decide)

/-- Witness for C2 at frequency 1005, tolerance 5 (research band, hue 13). -/
theorem C2_decode_characterization_witness :
    (0 ≤ (13 : ℤ) ∧ (13 : ℤ) ≤ 255) ∧
      (decodeFrequency 1005 5).isSome :=
  ⟨(C2_decode_characterization 1005 5).2.2 ⟨"research", 13, 1005⟩ (by decide),
   (C2_decode_characterization 1005 5).2.1.mpr
     ⟨("research", ⟨1000, 1100⟩), by decide, by norm_num, by norm_num⟩⟩

/-! ### Receiver (`src/audio/receiver.js`) -/

/-- `SAMPLE_RATE / FFT_SIZE` (44100 / 2048). -/
def FREQ_BIN_SIZE : ℚ := qdiv 44100 2048

/-- `DETECTION_THRESHOLDS.PEAK_SEARCH` (dB). -/
def PEAK_SEARCH : ℚ := -55

/-- `DETECTION_THRESHOLDS.SIGNAL_PROCESS` (dB). -/
def SIGNAL_PROCESS : ℚ := -45

/-- One entry of the `peaks` array built by `findFrequencyPeaks`. -/
structure Peak where
  frequency : ℚ
  magnitude : ℚ
  bin : ℕ
deriving DecidableEq

/-- The body of the candidate loop of `findFrequencyPeaks`: magnitude above
the search threshold and a strict local maximum over the 5-bin window on
both sides. -/
def isLocalPeak (data : List ℚ) (i : ℕ) : Bool :=
  decide (PEAK_SEARCH < data.getD i 0) &&
    (List.range 11).all (fun k =>
      (i - 5 + k == i) || decide (data.getD (i - 5 + k) 0 < data.getD i 0))

/-- Candidate peaks of `findFrequencyPeaks`, in bin order (the loop runs
`i = minPeakDistance .. length - minPeakDistance - 1`). -/
def peakCandidates (data : List ℚ) : List Peak :=
  ((List.range data.length).filter (fun i =>
      decide (5 ≤ i) && decide (i + 5 < data.length) && isLocalPeak data i)).map
    (fun (i : ℕ) => ⟨qmul (i : ℚ) FREQ_BIN_SIZE, data.getD i 0, i⟩)

/-- The order imposed by the comparator `(a, b) => b.magnitude - a.magnitude`
(descending magnitude).  `Array.prototype.sort` with a consistent comparator
is a stable sort, realized by `List.insertionSort`. -/
def peakGE (a b : Peak) : Prop := b.magnitude ≤ a.magnitude

instance : DecidableRel peakGE := fun a b =>
  inferInstanceAs (Decidable (b.magnitude ≤ a.magnitude))

instance : IsTotal Peak peakGE := ⟨fun a b => le_total b.magnitude a.magnitude⟩

instance : IsTrans Peak peakGE := ⟨fun _ _ _ h1 h2 => le_trans h2 h1⟩

/-- `findFrequencyPeaks(frequencyData)`: candidate peaks, sorted by
magnitude descending (stable), capped to the top 10. -/
def findFrequencyPeaks (data : List ℚ) : List Peak :=
  (List.insertionSort peakGE (peakCandidates data)).take 10

theorem mem_peakCandidates_elim {data : List ℚ} {p : Peak}
    (hp : p ∈ peakCandidates data) :
    ∃ i : ℕ, p = ⟨qmul (i : ℚ) FREQ_BIN_SIZE, data.getD i 0, i⟩ ∧
      i < data.length ∧ 5 ≤ i ∧ i + 5 < data.length ∧
      PEAK_SEARCH < data.getD i 0 ∧
      (∀ j : ℕ, i - 5 ≤ j → j ≤ i + 5 → j ≠ i →
        data.getD j 0 < data.getD i 0) := by
  rw [peakCandidates] at hp
  obtain ⟨i, hi, hpe⟩ := List.mem_map.mp hp
  rw [List.mem_filter, List.mem_range, Bool.and_assoc, Bool.and_eq_true,
    Bool.and_eq_true, decide_eq_true_eq, decide_eq_true_eq] at hi
  obtain ⟨hin, h5, h5n, hpk⟩ := hi
  rw [isLocalPeak, Bool.and_eq_true, decide_eq_true_eq, List.all_eq_true] at hpk
  obtain ⟨hthr, hwin⟩ := hpk
  refine ⟨i, hpe.symm, hin, h5, h5n, hthr, ?_⟩
  intro j hj1 hj2 hj3
  have hk := hwin (j - (i - 5)) (List.mem_range.mpr (by omega))
  rw [Bool.or_eq_true, beq_iff_eq, decide_eq_true_eq] at hk
  have hij : i - 5 + (j - (i - 5)) = j := by omega
  rw [hij] at hk
  exact hk.resolve_left hj3

/-- C7: `findFrequencyPeaks` returns only bins whose magnitude exceeds the
search threshold and which are strict local maxima within a 5-bin window on
both sides, reports each peak's frequency as `bin * sampleRate / fftSize`,
returns the peaks sorted by magnitude descending and capped at 10, and
returns no peak when no bin exceeds the search threshold. -/
theorem C7_findFrequencyPeaks_contract : ∀ data : List ℚ,
    (∀ p ∈ findFrequencyPeaks data,
        PEAK_SEARCH < p.magnitude ∧
        p.magnitude = data.getD p.bin 0 ∧
        p.frequency = (p.bin : ℚ) * (44100 / 2048) ∧
        (∀ j : ℕ, p.bin - 5 ≤ j → j ≤ p.bin + 5 → j ≠ p.bin →
          data.getD j 0 < p.magnitude)) ∧
    ((findFrequencyPeaks data).map Peak.magnitude).Sorted (· ≥ ·) ∧
    (findFrequencyPeaks data).length ≤ 10 ∧
    ((∀ x ∈ data, x ≤ PEAK_SEARCH) → findFrequencyPeaks data = []) := by
  intro data
  refine ⟨?_, ?_, ?_, ?_⟩
  · intro p hp
    have hmem : p ∈ peakCandidates data := by
      have h1 : p ∈ List.insertionSort peakGE (peakCandidates data) :=
        List.mem_of_mem_take hp
      exact ((List.perm_insertionSort peakGE (peakCandidates data)).mem_iff).mp h1
    obtain ⟨i, rfl, _, _, _, hthr, hwin⟩ := mem_peakCandidates_elim hmem
    refine ⟨hthr, rfl, ?_, ?_⟩
    · show qmul (i : ℚ) FREQ_BIN_SIZE = (i : ℚ) * (44100 / 2048)
      rw [qmul_eq, FREQ_BIN_SIZE, qdiv_eq]
    · intro j h1 h2 h3
      exact hwin j h1 h2 h3
  · have hs : (List.insertionSort peakGE (peakCandidates data)).Sorted peakGE :=
      List.sorted_insertionSort peakGE (peakCandidates data)
    have ht : (findFrequencyPeaks data).Sorted peakGE :=
      List.Pairwise.sublist (List.take_sublist 10 _) hs
    rw [List.Sorted, List.pairwise_map]
    exact ht
  · rw [findFrequencyPeaks, List.length_take]
    exact min_le_left _ _
  · intro hall
    have hc : peakCandidates data = [] := by
      rw [peakCandidates, List.map_eq_nil_iff]
      rw [List.filter_eq_nil_iff]
      intro i hi
      rw [List.mem_range] at hi
      intro hcontra
      rw [Bool.and_assoc, Bool.and_eq_true, Bool.and_eq_true, decide_eq_true_eq,
        decide_eq_true_eq] at hcontra
      obtain ⟨_, _, hpk⟩ := hcontra
      rw [isLocalPeak, Bool.and_eq_true, decide_eq_true_eq] at hpk
      have hmem : data.getD i 0 ∈ data := by
        rw [List.getD_eq_getElem?_getD, List.getElem?_eq_getElem hi]
        exact List.getElem_mem hi
      exact absurd hpk.1 (not_lt.mpr (hall _ hmem))
    rw [findFrequencyPeaks, hc]
    rfl

/-- Witness for C7 on a 30-sample frame that never exceeds the search
threshold. -/
theorem C7_findFrequencyPeaks_contract_witness :
    findFrequencyPeaks (List.replicate 30 (-90)) = [] :=
  (C7_findFrequencyPeaks_contract (List.replicate 30 (-90))).2.2.2 (by decide)

/-- One entry of `signalHistory`. -/
structure SignalSample where
  timestamp : ℤ
  frequency : Option ℚ
  magnitude : ℚ
  isSignal : Bool
deriving DecidableEq

/-- The receiver's mutable module state: `lastSelfPingTime`,
`lastDetectionTime`, `signalHistory`. -/
structure RecvState where
  lastSelfPingTime : ℤ
  lastDetectionTime : ℤ
  signalHistory : List SignalSample
deriving DecidableEq

/-- JavaScript `a || b` on a nullable number: `null` and `0` are falsy. -/
def orFalsy (a b : Option ℚ) : Option ℚ :=
  match a with
  | none => b
  | some x => if x = 0 then b else some x

/-- The `maxSignalInRange` / `bestFrequency` fold of `onAudioFrame`
(restricted to the hard-coded 600–800 Hz window). -/
def bestInRange (peaks : List Peak) : ℚ × Option ℚ :=
  peaks.foldl (fun acc p =>
      if 600 ≤ p.frequency ∧ p.frequency ≤ 800 ∧ acc.1 < p.magnitude then
        (p.magnitude, some p.frequency)
      else acc)
    (-100, none)

/-- `onAudioFrame(frequencyData)` at time `now`.  Returns the new state and,
when pattern completion is detected, the scheduled `analyzeSignalPattern`
call (`setTimeout` delay, captured `bestFrequency`). -/
def onAudioFrame (now : ℤ) (data : List ℚ) (s : RecvState) :
    RecvState × Option (ℤ × Option ℚ) :=
  if now - s.lastSelfPingTime < 2500 then (s, none)
  else
    let hist0 := s.signalHistory.filter (fun sm => now - sm.timestamp < 700)
    let best := bestInRange (findFrequencyPeaks data)
    let sample : SignalSample := ⟨now, best.2, best.1, decide (SIGNAL_PROCESS < best.1)⟩
    let hist := hist0 ++ [sample]
    let n := hist.length
    let s' : RecvState := { s with signalHistory := hist }
    if 25 < n then
      let recentSamples := hist.drop (n - 6)
      let olderSamples := (hist.take (n - 6)).drop (n - 50)
      if olderSamples.any (·.isSignal) && !(recentSamples.any (·.isSignal)) then
        let signalCount := (hist.filter (·.isSignal)).length
        let delay : ℤ := if 20 ≤ signalCount ∧ signalCount ≤ 35 then 250 else 100
        (s', some (delay, best.2))
      else (s', none)
    else (s', none)

/-- `getAverageFrequency(history)`. -/
def getAverageFrequency (history : List SignalSample) : Option ℚ :=
  let valid := history.filterMap (·.frequency)
  if valid.length = 0 then none
  else some (qdiv (valid.foldl qadd 0) valid.length)

/-- `normalizeStrength(magnitudeDb)`: clamp `(m + 60) / 50` to `[0, 1]`. -/
def normalizeStrength (magnitudeDb : ℚ) : ℚ :=
  qmax 0 (qmin 1 (qdiv (qsub magnitudeDb (-60)) (qsub (-10) (-60))))

/-- One pulse sequence extracted by `analyzeSignalPattern` (the
`startIndex`/`endIndex` fields are write-only in the source and omitted). -/
structure Pulse where
  startTime : ℤ
  endTime : ℤ
  duration : ℤ
  maxMagnitude : ℚ
  frequency : Option ℚ
deriving DecidableEq

/-- Closing a pulse sets `duration = endTime - startTime`. -/
def closePulse (cur : Pulse) : Pulse :=
  { cur with duration := cur.endTime - cur.startTime }

/-- The pulse-segmentation loop of `analyzeSignalPattern`: the binary
pattern is `magnitude > SIGNAL_PROCESS`; contiguous runs become pulses. -/
def extractPulsesGo (fallback : Option ℚ) :
    List SignalSample → Option Pulse → List Pulse
  | [], none => []
  | [], some cur => [closePulse cur]
  | sm :: rest, acc =>
      if SIGNAL_PROCESS < sm.magnitude then
        match acc with
        | none =>
            extractPulsesGo fallback rest
              (some ⟨sm.timestamp, sm.timestamp, 0, sm.magnitude,
                orFalsy sm.frequency fallback⟩)
        | some cur =>
            let cur1 := { cur with endTime := sm.timestamp }
            let cur2 :=
              if cur.maxMagnitude < sm.magnitude then
                { cur1 with
                  maxMagnitude := sm.magnitude
                  frequency := orFalsy sm.frequency fallback }
              else cur1
            extractPulsesGo fallback rest (some cur2)
      else
        match acc with
        | none => extractPulsesGo fallback rest none
        | some cur => closePulse cur :: extractPulsesGo fallback rest none

/-- The pulse sequences of a signal history. -/
def extractPulses (fallback : Option ℚ) (hist : List SignalSample) : List Pulse :=
  extractPulsesGo fallback hist none

/-- One step of the amplitude-difference classification
(`< 3 dB` apart → `same`, else sign of the difference). -/
def trendStep (a b : ℚ) : String :=
  if qabs (qsub b a) < 3 then "same"
  else if 0 < qsub b a then "up"
  else "down"

/-- `analyzeAmplitudePattern(pulseSequences)`. -/
def analyzeAmplitudePattern (pulseSequences : List Pulse) : String :=
  if pulseSequences.length < 2 then "constant"
  else
    let amplitudes := pulseSequences.map (·.maxMagnitude)
    let amplitudeTrend := (amplitudes.zip amplitudes.tail).map (fun ab => trendStep ab.1 ab.2)
    let upCount := (amplitudeTrend.filter (· == "up")).length
    let downCount := (amplitudeTrend.filter (· == "down")).length
    let sameCount := (amplitudeTrend.filter (· == "same")).length
    if qmul (amplitudeTrend.length : ℚ) (qdiv 7 10) ≤ (sameCount : ℚ) then "constant"
    else if qmul (downCount : ℚ) (qdiv 3 2) < (upCount : ℚ) then "ascending"
    else if qmul (upCount : ℚ) (qdiv 3 2) < (downCount : ℚ) then "descending"
    else
      let isAlternating := (amplitudeTrend.zip amplitudeTrend.tail).all
        (fun ab => ab.2 != ab.1 || ab.2 == "same")
      if 2 ≤ amplitudeTrend.length ∧ isAlternating = true ∧
          (sameCount : ℚ) < qmul (amplitudeTrend.length : ℚ) (qdiv 1 2) then "alternating"
      else "mixed"

/-- One entry of the receiver's `SUBMARINE_PATTERNS` table (the
`description` field is only logged and omitted). -/
structure SubmarinePattern where
  timing : List ℤ
  amplitudePattern : String
deriving DecidableEq

/-- The receiver's `SUBMARINE_PATTERNS.research` entry. -/
def researchPattern : SubmarinePattern := ⟨[200], "constant"⟩

/-- The receiver's `SUBMARINE_PATTERNS` table in insertion order. -/
def SUBMARINE_PATTERNS : List (String × SubmarinePattern) :=
  [("research", researchPattern),
   ("military", ⟨[100, 50, 100, 50, 100], "ascending"⟩),
   ("tourist",  ⟨[150, 75, 150], "descending"⟩),
   ("robotic",  ⟨[80, 40, 80, 40, 80, 40, 80], "alternating"⟩)]

/-- The expected inter-pulse intervals: odd-indexed entries of a timing
pattern (`for (i = 1; i < length; i += 2)`). -/
def oddIndexed : List ℤ → List ℤ
  | [] => []
  | [_] => []
  | _ :: b :: rest => b :: oddIndexed rest

/-- `Math.ceil(timing.length / 2)`: the pulse count of a timing pattern. -/
def expectedPulseCount (timing : List ℤ) : ℕ := (timing.length + 1) / 2

/-- Per-identity interval tolerance (the `switch` in
`matchesTimingPattern`). -/
def timingTolerance (modelId : String) : ℤ :=
  if modelId == "robotic" then 15
  else if modelId == "military" then 15
  else if modelId == "tourist" then 20
  else 25

/-- JavaScript `Math.abs` on an integer quantity. -/
def iabs (a : ℤ) : ℤ := if a < 0 then -a else a

/-- `matchesTimingPattern(detectedIntervals, expectedPattern, modelId,
pulseCount)`. -/
def matchesTimingPattern (detectedIntervals : List ℤ) (expectedPattern : List ℤ)
    (modelId : String) (pulseCount : ℕ) : Bool :=
  let expectedIntervals := oddIndexed expectedPattern
  if pulseCount != expectedPulseCount expectedPattern then false
  else if detectedIntervals.length != expectedIntervals.length then false
  else
    let tol := timingTolerance modelId
    (List.range expectedIntervals.length).all (fun i =>
      decide (iabs (detectedIntervals.getD i 0 - expectedIntervals.getD i 0) ≤ tol))

/-- The order imposed by the specificity comparator of `matchSignalPattern`:
more pulses first; among equal pulse counts, smaller first inter-pulse
interval (`timing[1] || 0`) first. -/
def patternLe (a b : String × SubmarinePattern) : Prop :=
  expectedPulseCount b.2.timing < expectedPulseCount a.2.timing ∨
    (expectedPulseCount a.2.timing = expectedPulseCount b.2.timing ∧
      a.2.timing.getD 1 0 ≤ b.2.timing.getD 1 0)

instance : DecidableRel patternLe := fun a b =>
  inferInstanceAs (Decidable (_ ∨ _))

instance : IsTotal (String × SubmarinePattern) patternLe :=
  ⟨fun a b => by
    rw [patternLe, patternLe]
    omega⟩

instance : IsTrans (String × SubmarinePattern) patternLe :=
  ⟨fun a b c hab hbc => by
    rw [patternLe] at hab hbc ⊢
    omega⟩

/-- The candidate list tried by `matchSignalPattern` for multi-pulse
observations: the non-research patterns, stably sorted by specificity. -/
def patternEntries : List (String × SubmarinePattern) :=
  List.insertionSort patternLe (SUBMARINE_PATTERNS.filter (fun p => p.1 != "research"))

/-- The candidate loop of `matchSignalPattern`: accept on timing plus
amplitude, or on timing alone when the observed trend is not `mixed`. -/
def matchLoop (pulseCount : ℕ) (intervals : List ℤ) (amplitudePattern : String) :
    List (String × SubmarinePattern) → Option (String × SubmarinePattern)
  | [] => none
  | (modelId, pattern) :: rest =>
      let timingMatch := matchesTimingPattern intervals pattern.timing modelId pulseCount
      let amplitudeMatch := pattern.amplitudePattern == amplitudePattern
      if timingMatch && amplitudeMatch then some (modelId, pattern)
      else if timingMatch && amplitudePattern != "mixed" then some (modelId, pattern)
      else matchLoop pulseCount intervals amplitudePattern rest

/-- Inter-pulse silence intervals: next pulse's start minus previous
pulse's end. -/
def pulseIntervals (pulseSequences : List Pulse) : List ℤ :=
  (pulseSequences.zip pulseSequences.tail).map (fun pq => pq.2.startTime - pq.1.endTime)

/-- `matchSignalPattern(pulseSequences, amplitudePattern)`. -/
def matchSignalPattern (pulseSequences : List Pulse) (amplitudePattern : String) :
    Option (String × SubmarinePattern) :=
  match pulseSequences with
  | [] => none
  | [p] =>
      if 150 ≤ p.duration ∧ p.duration ≤ 300 then
        if amplitudePattern == "constant" then some ("research", researchPattern)
        else none
      else none
  | _ :: _ :: _ =>
      matchLoop pulseSequences.length (pulseIntervals pulseSequences)
        amplitudePattern patternEntries

/-- The `pingDetected` event payload. -/
structure Detection where
  frequency : Option ℚ
  modelId : String
  strength : ℚ
  magnitude : ℚ
  timestamp : ℤ
  pattern : SubmarinePattern
deriving DecidableEq

/-- The `reduce` picking the strongest pulse (`prev` wins only on a strictly
larger magnitude). -/
def strongestPulse (p : Pulse) (rest : List Pulse) : Pulse :=
  rest.foldl (fun prev cur => if cur.maxMagnitude < prev.maxMagnitude then prev else cur) p

/-- `analyzeSignalPattern(frequency)` at time `now`: early return on a short
history or within the 800 ms detection cooldown; otherwise segment pulses,
classify the amplitude trend, match, and on either match or no-match clear
the history and set `lastDetectionTime`.  A run that finds zero pulse
sequences returns with the state untouched. -/
def analyzeSignalPattern (frequency : Option ℚ) (now : ℤ) (s : RecvState) :
    RecvState × Option Detection :=
  if s.signalHistory.length < 25 then (s, none)
  else if now - s.lastDetectionTime < 800 then (s, none)
  else
    match extractPulses frequency s.signalHistory with
    | [] => (s, none)
    | p :: rest =>
        let amplitudePattern := analyzeAmplitudePattern (p :: rest)
        match matchSignalPattern (p :: rest) amplitudePattern with
        | some (modelId, pattern) =>
            let strongest := strongestPulse p rest
            ({ s with signalHistory := [], lastDetectionTime := now },
              some ⟨orFalsy frequency strongest.frequency, modelId,
                normalizeStrength strongest.maxMagnitude, strongest.maxMagnitude,
                p.startTime, pattern⟩)
        | none => ({ s with signalHistory := [], lastDetectionTime := now }, none)

/-- The `pingEmitted` listener: record the self-ping time, reset the
detection cooldown, clear the signal history. -/
def handlePingEmitted (now : ℤ) (_s : RecvState) : RecvState :=
  ⟨now, now, []⟩

/-- The externally triggered receiver events: an analysis frame, the
`pingEmitted` notification, and a `setTimeout` analysis callback firing
(carrying the `bestFrequency` captured at scheduling time; the
`signalHistory` average is read at fire time). -/
inductive RecvEvent where
  | frame (data : List ℚ)
  | emitted
  | analyzeTimer (bestFrequency : Option ℚ)

/-- One receiver event at time `now`. -/
def stepEvent (e : RecvEvent) (now : ℤ) (s : RecvState) : RecvState × Option Detection :=
  match e with
  | .frame data => ((onAudioFrame now data s).1, none)
  | .emitted => (handlePingEmitted now s, none)
  | .analyzeTimer bf =>
      analyzeSignalPattern (orFalsy bf (getAverageFrequency s.signalHistory)) now s

/-- Run a sequence of timestamped receiver events, collecting the emitted
`pingDetected` events with their times. -/
def runEvents (s : RecvState) : List (RecvEvent × ℤ) → List (ℤ × Detection)
  | [] => []
  | (e, t) :: rest =>
      let st := stepEvent e t s
      (match st.2 with
       | some det => [(t, det)]
       | none => []) ++ runEvents st.1 rest

/-! ### Emitter (`src/audio/emitter.js`) -/

/-- The emitter's module state (`audioContext` nullability and
`lastEmitTime`). -/
structure EmitterState where
  audioContextReady : Bool
  lastEmitTime : ℤ
deriving DecidableEq

/-- One scheduled oscillator burst (start time and duration in seconds). -/
structure TonePulse where
  startTime : ℚ
  duration : ℚ
  frequency : ℚ
  gain : ℚ
deriving DecidableEq

/-- The emitter's `SUBMARINE_PATTERNS` table
(`pulse_duration_ms, pause_duration_ms, ...`). -/
def EMITTER_PATTERNS : List (String × List ℤ) :=
  [("research", [200]),
   ("military", [100, 50, 100, 50, 100]),
   ("tourist",  [150, 75, 150]),
   ("robotic",  [80, 40, 80, 40, 80, 40, 80])]

/-- The scheduling loop of `emitPing` (`i += 2`; duration and pause converted
to seconds; `PING_GAIN` is 0.5; the cursor advances by duration + pause). -/
def schedulePulses (frequency : ℚ) : List ℤ → ℚ → List TonePulse
  | [], _ => []
  | [d], currentTime => [⟨currentTime, qdiv d 1000, frequency, qdiv 1 2⟩]
  | d :: p :: rest, currentTime =>
      ⟨currentTime, qdiv d 1000, frequency, qdiv 1 2⟩ ::
        schedulePulses frequency rest (qadd currentTime (qadd (qdiv d 1000) (qdiv p 1000)))

/-- The `pingEmitted` event payload together with the scheduled tones. -/
structure PingEmission where
  frequency : ℚ
  modelId : String
  pattern : List ℤ
  timestamp : ℤ
  pulses : List TonePulse
deriving DecidableEq

/-- `emitPing(hue, modelId)` at time `now` with audio-clock origin `t0`:
throws when the audio context is missing; a call within 2000 ms of the last
accepted emission is a silent no-op (before any table lookup); otherwise
schedules the model's pattern at `hueToFrequency(hue)` and fires
`pingEmitted`.  The lookup `SUBMARINE_PATTERNS[modelId] || research` is
modelled for own keys and absent keys (`undefined`); the full model
including the `Object.prototype` inheritance is `emitPingJs` further
down. -/
def emitPing (now : ℤ) (t0 : ℚ) (hue : ℚ) (modelId : String) (s : EmitterState) :
    Except String (EmitterState × Option PingEmission) :=
  if !s.audioContextReady then .error "Audio context not initialized"
  else if now - s.lastEmitTime < 2000 then .ok (s, none)
  else
    let frequency := hueToFrequency hue
    let pattern := ((EMITTER_PATTERNS.find? (fun p => p.1 == modelId)).map Prod.snd).getD [200]
    .ok ({ s with lastEmitTime := now },
      some ⟨frequency, modelId, pattern, now, schedulePulses frequency pattern t0⟩)

/-- C8: a call to `emitPing` made less than 2000 ms after the previous
accepted emission is a silent no-op: no scheduled tone, no `pingEmitted`
event, `lastEmitTime` unchanged, no error. -/
theorem C8_emit_cooldown_silent_noop :
    ∀ (s : EmitterState) (now : ℤ) (t0 hue : ℚ) (m : String),
    s.audioContextReady = true → now - s.lastEmitTime < 2000 →
    emitPing now t0 hue m s = .ok (s, none) := by
  intro s now t0 hue m hready hcool
  simp [emitPing, hready, hcool]

/-- Witness for C8: a second call 1100 ms after an accepted emission. -/
theorem C8_emit_cooldown_silent_noop_witness :
    emitPing 100 0 128 "research" ⟨true, -1000⟩ = .ok (⟨true, -1000⟩, none) :=
  C8_emit_cooldown_silent_noop ⟨true, -1000⟩ 100 0 128 "research" rfl (by decide)

/-! ### Prototype-chain behaviour of the table lookups (for C10)

`getSubmarineFrequency` and `emitPing` above model the indexings
`SUBMARINE_FREQUENCY_RANGES[modelId]` and `SUBMARINE_PATTERNS[modelId]`
only for own keys and for absent keys (`undefined`, which is falsy and
takes the research fallback).  In JavaScript an object literal also
inherits the members of `Object.prototype`, so for model ids such as
`"toString"` the indexing yields a truthy inherited function and the
fallback is skipped.  The `...Js` variants below model the full lookup;
on every id that is not an `Object.prototype` member name they agree with
the simpler functions (see `getSubmarineFrequencyJs_agrees`), so the
claims quantified over the configured identities are unaffected. -/

/-- The member names every object literal inherits from `Object.prototype`
(its own property names, plus the `__proto__` accessor).  Indexing an
object literal with any of these yields a truthy value, not `undefined`. -/
def OBJECT_PROTOTYPE_KEYS : List String :=
  ["constructor", "hasOwnProperty", "isPrototypeOf", "propertyIsEnumerable",
   "toLocaleString", "toString", "valueOf",
   "__defineGetter__", "__defineSetter__", "__lookupGetter__", "__lookupSetter__",
   "__proto__"]

/-- Result of the JavaScript indexing `obj[key]` on a table-backed object
literal: the value of an own key, a truthy member inherited from
`Object.prototype`, or `undefined`. -/
inductive JsProp (α : Type) where
  | own (v : α)
  | inherited (key : String)
  | absent

/-- JavaScript property indexing on a table-backed object literal: own keys
shadow the prototype; otherwise `Object.prototype` members are found;
otherwise the result is `undefined`. -/
def jsIndex (table : List (String × α)) (key : String) : JsProp α :=
  match table.find? (fun p => p.1 == key) with
  | some p => .own p.2
  | none => if key ∈ OBJECT_PROTOTYPE_KEYS then .inherited key else .absent

/-- A JavaScript number: an actual (rational) value or `NaN`. -/
inductive JNum where
  | num (q : ℚ)
  | nan
deriving DecidableEq

/-- `getSubmarineFrequency(modelId, hue)` with the prototype chain
modelled.  Only `undefined` is falsy, so only it takes the `if (!range)`
research fallback; an inherited `Object.prototype` member is truthy but has
no `min`/`max` properties (they read as `undefined`), so the interpolation
and `Math.round` produce `NaN`. -/
def getSubmarineFrequencyJs (modelId : String) (hue : ℚ) : JNum :=
  match jsIndex SUBMARINE_FREQUENCY_RANGES modelId with
  | .own range =>
      .num (qdiv (jround (qmul (qadd range.min (qmul (qdiv hue 255) (qsub range.max range.min))) 10)) 10)
  | .inherited _ => .nan
  | .absent => .num 1000

/-- Away from the `Object.prototype` member names, the full model agrees
with `getSubmarineFrequency`. -/
theorem getSubmarineFrequencyJs_agrees (m : String) (hue : ℚ)
    (hm : m ∉ OBJECT_PROTOTYPE_KEYS) :
    getSubmarineFrequencyJs m hue = .num (getSubmarineFrequency m hue) := by
  rcases hfind : SUBMARINE_FREQUENCY_RANGES.find? (fun p => p.1 == m) with _ | p
  · have hidx : jsIndex SUBMARINE_FREQUENCY_RANGES m = .absent := by
      rw [jsIndex, hfind]
      exact if_neg hm
    rw [getSubmarineFrequencyJs, hidx, getSubmarineFrequency, hfind]
  · obtain ⟨k, rg⟩ := p
    have hidx : jsIndex SUBMARINE_FREQUENCY_RANGES m = .own rg := by
      rw [jsIndex, hfind]
    rw [getSubmarineFrequencyJs, hidx, getSubmarineFrequency, hfind]

/-- The value of `SUBMARINE_PATTERNS[modelId] || SUBMARINE_PATTERNS.research`
in `emitPing`: an own timing array; for an `Object.prototype` member name
the truthy inherited function itself (`||` keeps it); the research timing
`[200]` only for `undefined`. -/
inductive JsPattern where
  | timing (l : List ℤ)
  | protoMember (key : String)
deriving DecidableEq

/-- The pattern lookup of `emitPing` with the prototype chain modelled. -/
def jsPatternLookup (modelId : String) : JsPattern :=
  match jsIndex EMITTER_PATTERNS modelId with
  | .own l => .timing l
  | .inherited key => .protoMember key
  | .absent => .timing [200]

/-- Arity (the `.length` property) of each `Object.prototype` member, which
becomes the bound of the pulse loop `for (i = 0; i < pattern.length; i += 2)`
when `pattern` is the inherited member.  `__proto__` reads as the plain
object `Object.prototype`, whose `length` property is `undefined`, so the
loop never runs. -/
def OBJECT_PROTOTYPE_ARITY (key : String) : ℕ :=
  if key == "constructor" then 1
  else if key == "hasOwnProperty" then 1
  else if key == "isPrototypeOf" then 1
  else if key == "propertyIsEnumerable" then 1
  else if key == "__defineGetter__" then 2
  else if key == "__defineSetter__" then 2
  else if key == "__lookupGetter__" then 1
  else if key == "__lookupSetter__" then 1
  else 0

/-- A scheduled oscillator burst whose times may be `NaN`. -/
structure TonePulseJs where
  startTime : JNum
  duration : JNum
  frequency : ℚ
  gain : ℚ
deriving DecidableEq

/-- The pulse loop run on an inherited function instead of a timing array:
`pattern[i]` is `undefined`, so the pulse duration is `NaN`; the pause
`(pattern[i + 1] || 0)` falls back to 0; after the first pulse the cursor
`currentTime += NaN + 0` is `NaN`. -/
def protoSched (frequency : ℚ) : ℕ → JNum → List TonePulseJs
  | 0, _ => []
  | 1, cur => [⟨cur, .nan, frequency, qdiv 1 2⟩]
  | n + 2, cur => ⟨cur, .nan, frequency, qdiv 1 2⟩ :: protoSched frequency n .nan

/-- The scheduling loop of `emitPing` on the full pattern-lookup result. -/
def schedulePulsesJs (frequency : ℚ) (pattern : JsPattern) (t0 : ℚ) : List TonePulseJs :=
  match pattern with
  | .timing l =>
      (schedulePulses frequency l t0).map
        (fun p => ⟨.num p.startTime, .num p.duration, p.frequency, p.gain⟩)
  | .protoMember key => protoSched frequency (OBJECT_PROTOTYPE_ARITY key) (.num t0)

/-- The `pingEmitted` payload of the full emitter model. -/
structure PingEmissionJs where
  frequency : ℚ
  modelId : String
  pattern : JsPattern
  timestamp : ℤ
  pulses : List TonePulseJs
deriving DecidableEq

/-- `emitPing(hue, modelId)` with the prototype chain of the pattern table
modelled; identical to `emitPing` except for the lookup and the scheduled
pulse list. -/
def emitPingJs (now : ℤ) (t0 : ℚ) (hue : ℚ) (modelId : String) (s : EmitterState) :
    Except String (EmitterState × Option PingEmissionJs) :=
  if !s.audioContextReady then .error "Audio context not initialized"
  else if now - s.lastEmitTime < 2000 then .ok (s, none)
  else
    let frequency := hueToFrequency hue
    let pattern := jsPatternLookup modelId
    .ok ({ s with lastEmitTime := now },
      some ⟨frequency, modelId, pattern, now, schedulePulsesJs frequency pattern t0⟩)

/-- Counterexample to C10 as stated: `"toString"` is not a configured
identity, yet neither interface falls back to the research defaults — the
indexing hits the truthy member inherited from `Object.prototype`, so
`getSubmarineFrequency` returns `NaN` instead of 1000 (the `if (!range)`
fallback is skipped), and an accepted `emitPing` schedules zero pulses
(`Object.prototype.toString.length` is 0) instead of the single 200 ms
research pulse. -/
theorem C10_unknown_identity_counterexample :
    ("toString" ∉ submarineTypes ∧
      getSubmarineFrequencyJs "toString" 128 = .nan ∧
      getSubmarineFrequencyJs "toString" 128 ≠ .num 1000) ∧
    (emitPingJs 3000 0 128 "toString" ⟨true, 0⟩ =
        .ok (⟨true, 3000⟩,
          some ⟨hueToFrequency 128, "toString", .protoMember "toString", 3000, []⟩) ∧
      schedulePulsesJs (hueToFrequency 128) (.timing [200]) 0 ≠ []) :=
  ⟨by decide, rfl, by decide⟩

/-- C10 (amended): for every model id that is neither a configured identity
nor an `Object.prototype` member name, the public interface falls back to
the research defaults: the frequency lookup returns the research band's
minimum (1000 Hz, any hue) and an accepted `emitPing` schedules the
research pulse pattern `[200]`. -/
theorem C10_unknown_identity_fallback_amended : ∀ (m : String) (hue : ℚ),
    m ∉ submarineTypes → m ∉ OBJECT_PROTOTYPE_KEYS →
    getSubmarineFrequencyJs m hue = .num 1000 ∧
    (∀ (now : ℤ) (t0 : ℚ) (s : EmitterState),
      s.audioContextReady = true → 2000 ≤ now - s.lastEmitTime →
      emitPingJs now t0 hue m s =
        .ok ({ s with lastEmitTime := now },
          some ⟨hueToFrequency hue, m, .timing [200], now,
            schedulePulsesJs (hueToFrequency hue) (.timing [200]) t0⟩)) := by
  intro m hue hm hproto
  simp only [submarineTypes, List.mem_cons, List.not_mem_nil, or_false, not_or] at hm
  obtain ⟨h1, h2, h3, h4⟩ := hm
  have hf1 : SUBMARINE_FREQUENCY_RANGES.find? (fun p => p.1 == m) = none := by
    rw [List.find?_eq_none]
    intro x hx
    simp only [SUBMARINE_FREQUENCY_RANGES, List.mem_cons, List.not_mem_nil, or_false] at hx
    rcases hx with rfl | rfl | rfl | rfl
    · simp [beq_iff_eq]; exact Ne.symm h1
    · simp [beq_iff_eq]; exact Ne.symm h2
    · simp [beq_iff_eq]; exact Ne.symm h3
    · simp [beq_iff_eq]; exact Ne.symm h4
  have hf2 : EMITTER_PATTERNS.find? (fun p => p.1 == m) = none := by
    rw [List.find?_eq_none]
    intro x hx
    simp only [EMITTER_PATTERNS, List.mem_cons, List.not_mem_nil, or_false] at hx
    rcases hx with rfl | rfl | rfl | rfl
    · simp [beq_iff_eq]; exact Ne.symm h2
    · simp [beq_iff_eq]; exact Ne.symm h1
    · simp [beq_iff_eq]; exact Ne.symm h4
    · simp [beq_iff_eq]; exact Ne.symm h3
  constructor
  · have hidx : jsIndex SUBMARINE_FREQUENCY_RANGES m = .absent := by
      rw [jsIndex, hf1]
      exact if_neg hproto
    rw [getSubmarineFrequencyJs, hidx]
  · intro now t0 s hready hcool
    have hpat : jsPatternLookup m = .timing [200] := by
      have hidx : jsIndex EMITTER_PATTERNS m = .absent := by
        rw [jsIndex, hf2]
        exact if_neg hproto
      rw [jsPatternLookup, hidx]
    simp [emitPingJs, hready, not_lt.mpr hcool, hpat]

/-- Witness for the amended C10 at the unknown model id `"submarine"`. -/
theorem C10_unknown_identity_fallback_amended_witness :
    getSubmarineFrequencyJs "submarine" 128 = .num 1000 ∧
    emitPingJs 3000 0 128 "submarine" ⟨true, 0⟩ =
      .ok (⟨true, 3000⟩,
        some ⟨hueToFrequency 128, "submarine", .timing [200], 3000,
          schedulePulsesJs (hueToFrequency 128) (.timing [200]) 0⟩) := by
  have h := C10_unknown_identity_fallback_amended "submarine" 128 (by decide) (by decide)
  exact ⟨h.1, h.2 3000 0 ⟨true, 0⟩ rfl (by decide)⟩

/-- A synthetic analysis frame whose only peak is at bin 49
(≈ 1055.1 Hz, inside the research band 1000–1100 Hz). -/
def frameInBand : List ℚ := (List.range 55).map (fun i => if i = 49 then -40 else -90)

/-- A synthetic analysis frame whose only peak is at bin 33
(≈ 710.6 Hz, outside every configured band). -/
def frameOutOfBand : List ℚ := (List.range 55).map (fun i => if i = 33 then -40 else -90)

/-- C6 (code bug evidence): signal recording in `onAudioFrame` is restricted
to the hard-coded 600–800 Hz window, not to the configured band table used
by encode/decode (800–1500 Hz).  A clear peak at ≈1055.1 Hz — inside the
research band and decodable — is dropped (the recorded sample carries the
−100 dB floor and no frequency), while a peak at ≈710.6 Hz — inside no
configured band, `decodeFrequency` returns `none` — is recorded as signal. -/
theorem C6_band_restriction_failing_input :
    (findFrequencyPeaks frameInBand = [⟨qmul 49 FREQ_BIN_SIZE, -40, 49⟩] ∧
      (decodeFrequency (qmul 49 FREQ_BIN_SIZE) 5).isSome ∧
      (onAudioFrame 0 frameInBand ⟨-10000, -10000, []⟩).1.signalHistory =
        [⟨0, none, -100, false⟩]) ∧
    (findFrequencyPeaks frameOutOfBand = [⟨qmul 33 FREQ_BIN_SIZE, -40, 33⟩] ∧
      decodeFrequency (qmul 33 FREQ_BIN_SIZE) 5 = none ∧
      (onAudioFrame 0 frameOutOfBand ⟨-10000, -10000, []⟩).1.signalHistory =
        [⟨0, some (qmul 33 FREQ_BIN_SIZE), -40, true⟩]) := by decide

/-- C9: a single-pulse observation matches research exactly when its
duration lies in 150–300 ms and the amplitude trend is `constant`; any
other single-pulse observation yields no match. -/
theorem C9_single_pulse_research : ∀ (p : Pulse) (amp : String),
    matchSignalPattern [p] amp =
      (if 150 ≤ p.duration ∧ p.duration ≤ 300 ∧ amp = "constant"
       then some ("research", researchPattern) else none) := by
  intro p amp
  by_cases hd : 150 ≤ p.duration ∧ p.duration ≤ 300
  · by_cases ha : amp = "constant"
    · rw [matchSignalPattern, if_pos hd, if_pos (beq_iff_eq.mpr ha),
        if_pos ⟨hd.1, hd.2, ha⟩]
    · rw [matchSignalPattern, if_pos hd,
        if_neg (fun hb => ha (beq_iff_eq.mp hb)),
        if_neg (fun hc => ha hc.2.2)]
  · rw [matchSignalPattern, if_neg hd, if_neg (fun hc => hd ⟨hc.1, hc.2.1⟩)]

theorem iabs_eq (a : ℤ) : iabs a = |a| := by
  rcases lt_or_le a 0 with h | h
  · rw [iabs, if_pos h, abs_of_neg h]
  · rw [iabs, if_neg (not_lt.mpr h), abs_of_nonneg h]

/-- Acceptance of one candidate signature by the multi-pulse matcher, as the
spec states it: the observed pulse count equals the candidate's, every
observed inter-pulse interval is within the candidate's per-identity
tolerance of the expected interval, and either the observed amplitude trend
equals the candidate's declared trend or it is not `mixed`. -/
def AcceptsCandidate (entry : String × SubmarinePattern) (pulseCount : ℕ)
    (intervals : List ℤ) (amp : String) : Prop :=
  pulseCount = expectedPulseCount entry.2.timing ∧
  intervals.length = (oddIndexed entry.2.timing).length ∧
  (∀ k < (oddIndexed entry.2.timing).length,
    |intervals.getD k 0 - (oddIndexed entry.2.timing).getD k 0| ≤
      timingTolerance entry.1) ∧
  (amp = entry.2.amplitudePattern ∨ amp ≠ "mixed")

instance (entry : String × SubmarinePattern) (pulseCount : ℕ)
    (intervals : List ℤ) (amp : String) :
    Decidable (AcceptsCandidate entry pulseCount intervals amp) :=
  inferInstanceAs (Decidable (_ ∧ _ ∧ _ ∧ _))

theorem matchesTimingPattern_iff (d : List ℤ) (timing : List ℤ) (m : String) (pc : ℕ) :
    matchesTimingPattern d timing m pc = true ↔
      (pc = expectedPulseCount timing ∧ d.length = (oddIndexed timing).length ∧
        ∀ k < (oddIndexed timing).length,
          |d.getD k 0 - (oddIndexed timing).getD k 0| ≤ timingTolerance m) := by
  by_cases h1 : pc = expectedPulseCount timing
  · by_cases h2 : d.length = (oddIndexed timing).length
    · rw [matchesTimingPattern, if_neg (by simp [h1]), if_neg (by simp [h2])]
      simp only [List.all_eq_true, List.mem_range, decide_eq_true_eq, iabs_eq]
      tauto
    · rw [matchesTimingPattern, if_neg (by simp [h1]), if_pos (by simp [h2])]
      simp [h2]
  · rw [matchesTimingPattern, if_pos (by simp [h1])]
    simp [h1]

theorem accepts_iff (m : String) (pat : SubmarinePattern) (pc : ℕ)
    (intervals : List ℤ) (amp : String) :
    AcceptsCandidate (m, pat) pc intervals amp ↔
      (matchesTimingPattern intervals pat.timing m pc = true ∧
        (amp = pat.amplitudePattern ∨ amp ≠ "mixed")) := by
  rw [matchesTimingPattern_iff, AcceptsCandidate]
  tauto

theorem matchLoop_eq_find (pc : ℕ) (intervals : List ℤ) (amp : String) :
    ∀ entries : List (String × SubmarinePattern),
      matchLoop pc intervals amp entries =
        entries.find? (fun e => decide (AcceptsCandidate e pc intervals amp))
  | [] => rfl
  | (m, pat) :: rest => by
      simp only [matchLoop, matchLoop_eq_find pc intervals amp rest]
      by_cases ht : matchesTimingPattern intervals pat.timing m pc = true
      · by_cases ha : pat.amplitudePattern = amp
        · have hAcc : AcceptsCandidate (m, pat) pc intervals amp :=
            (accepts_iff m pat pc intervals amp).mpr ⟨ht, Or.inl ha.symm⟩
          simp [ht, ha, hAcc]
        · by_cases hm : amp = "mixed"
          · have hAcc : ¬ AcceptsCandidate (m, pat) pc intervals amp := by
              rw [accepts_iff]
              rintro ⟨_, hor⟩
              rcases hor with h | h
              · exact ha h.symm
              · exact h hm
            subst hm
            simp [ht, ha, hAcc]
          · have hAcc : AcceptsCandidate (m, pat) pc intervals amp :=
              (accepts_iff m pat pc intervals amp).mpr ⟨ht, Or.inr hm⟩
            simp [ht, ha, hm, hAcc]
      · have hAcc : ¬ AcceptsCandidate (m, pat) pc intervals amp := by
          rw [accepts_iff]
          rintro ⟨h, _⟩
          exact ht h
        simp [ht, hAcc]

/-- C3: for multi-pulse observations the matcher equals a first-match search
over the non-research candidates in specificity order (robotic 4 pulses,
military 3, tourist 2 — more pulses first, then smaller nominal interval),
accepting a candidate exactly per `AcceptsCandidate`; if no candidate is
acceptable the result is `none`. -/
theorem C3_multi_pulse_matcher : ∀ (pulses : List Pulse) (amp : String),
    2 ≤ pulses.length →
    matchSignalPattern pulses amp =
      patternEntries.find? (fun e =>
        decide (AcceptsCandidate e pulses.length (pulseIntervals pulses) amp)) ∧
    patternEntries =
      [("robotic", ⟨[80, 40, 80, 40, 80, 40, 80], "alternating"⟩),
       ("military", ⟨[100, 50, 100, 50, 100], "ascending"⟩),
       ("tourist", ⟨[150, 75, 150], "descending"⟩)] ∧
    patternEntries.Pairwise patternLe := by
  intro pulses amp hlen
  refine ⟨?_, by decide, by decide⟩
  match pulses with
  | [] => simp at hlen
  | [_] => simp at hlen
  | a :: b :: rest =>
      rw [matchSignalPattern]
      exact matchLoop_eq_find _ _ amp patternEntries

/-- Witness for C3 on a military-shaped pulse train (three 100 ms pulses,
50 ms gaps, ascending amplitude). -/
theorem C3_multi_pulse_matcher_witness :
    matchSignalPattern
        [⟨0, 100, 100, -30, none⟩, ⟨150, 250, 100, -25, none⟩, ⟨300, 400, 100, -20, none⟩]
        "ascending" =
      patternEntries.find? (fun e =>
        decide (AcceptsCandidate e 3
          (pulseIntervals
            [⟨0, 100, 100, -30, none⟩, ⟨150, 250, 100, -25, none⟩, ⟨300, 400, 100, -20, none⟩])
          "ascending")) :=
  (C3_multi_pulse_matcher
    [⟨0, 100, 100, -30, none⟩, ⟨150, 250, 100, -25, none⟩, ⟨300, 400, 100, -20, none⟩]
    "ascending" (by decide)).1

/-! ### Temporal properties (self-suppression, detection cooldown) -/

theorem onAudioFrame_skip {now : ℤ} {data : List ℚ} {s : RecvState}
    (h : now - s.lastSelfPingTime < 2500) :
    onAudioFrame now data s = (s, none) := by
  rw [onAudioFrame, if_pos h]

/-- `onAudioFrame` never touches the cooldown clocks. -/
theorem onAudioFrame_clocks (now : ℤ) (data : List ℚ) (s : RecvState) :
    (onAudioFrame now data s).1.lastSelfPingTime = s.lastSelfPingTime ∧
    (onAudioFrame now data s).1.lastDetectionTime = s.lastDetectionTime := by
  rw [onAudioFrame]
  split
  · exact ⟨rfl, rfl⟩
  · dsimp only
    split
    · split
      · exact ⟨rfl, rfl⟩
      · exact ⟨rfl, rfl⟩
    · exact ⟨rfl, rfl⟩

theorem analyze_early_short {f : Option ℚ} {now : ℤ} {s : RecvState}
    (h : s.signalHistory.length < 25) :
    analyzeSignalPattern f now s = (s, none) := by
  rw [analyzeSignalPattern, if_pos h]

theorem analyze_early_cooldown {f : Option ℚ} {now : ℤ} {s : RecvState}
    (h : now - s.lastDetectionTime < 800) :
    analyzeSignalPattern f now s = (s, none) := by
  by_cases h1 : s.signalHistory.length < 25
  · rw [analyzeSignalPattern, if_pos h1]
  · rw [analyzeSignalPattern, if_neg h1, if_pos h]

/-- Every run of `analyzeSignalPattern` either leaves the state untouched
and emits nothing, or clears the history and stamps `lastDetectionTime` with
the current time — the latter only outside the 800 ms cooldown. -/
theorem analyze_result_cases (f : Option ℚ) (now : ℤ) (s : RecvState) :
    analyzeSignalPattern f now s = (s, none) ∨
    ((analyzeSignalPattern f now s).1.signalHistory = [] ∧
      (analyzeSignalPattern f now s).1.lastDetectionTime = now ∧
      800 ≤ now - s.lastDetectionTime) := by
  by_cases h1 : s.signalHistory.length < 25
  · exact Or.inl (analyze_early_short h1)
  · by_cases h2 : now - s.lastDetectionTime < 800
    · exact Or.inl (analyze_early_cooldown h2)
    · rw [analyzeSignalPattern, if_neg h1, if_neg h2]
      rcases hx : extractPulses f s.signalHistory with _ | ⟨p, rest⟩
      · exact Or.inl rfl
      · dsimp only
        rcases hm : matchSignalPattern (p :: rest) (analyzeAmplitudePattern (p :: rest))
          with _ | ⟨mid, pat⟩
        · exact Or.inr ⟨rfl, rfl, not_lt.mp h2⟩
        · exact Or.inr ⟨rfl, rfl, not_lt.mp h2⟩

/-- A step that emits a detection happened at least 800 ms after the
previous `lastDetectionTime` and stamps the new `lastDetectionTime`. -/
theorem stepEvent_detect_elim (e : RecvEvent) (t : ℤ) (s : RecvState)
    (det : Detection) (h : (stepEvent e t s).2 = some det) :
    s.lastDetectionTime + 800 ≤ t ∧ (stepEvent e t s).1.lastDetectionTime = t := by
  cases e with
  | frame data => exact absurd h (by simp [stepEvent])
  | emitted => exact absurd h (by simp [stepEvent])
  | analyzeTimer bf =>
      rcases analyze_result_cases (orFalsy bf (getAverageFrequency s.signalHistory)) t s
        with hc | ⟨_, hd, hcool⟩
      · rw [stepEvent] at h
        rw [hc] at h
        simp at h
      · rw [stepEvent]
        exact ⟨by omega, hd⟩

/-- Any step either keeps `lastDetectionTime` or stamps it with the event
time. -/
theorem stepEvent_lastDet (e : RecvEvent) (t : ℤ) (s : RecvState) :
    (stepEvent e t s).1.lastDetectionTime = s.lastDetectionTime ∨
    (stepEvent e t s).1.lastDetectionTime = t := by
  cases e with
  | frame data => exact Or.inl (onAudioFrame_clocks t data s).2
  | emitted => exact Or.inr rfl
  | analyzeTimer bf =>
      rcases analyze_result_cases (orFalsy bf (getAverageFrequency s.signalHistory)) t s
        with hc | ⟨_, hd, _⟩
      · rw [stepEvent, hc]
        exact Or.inl rfl
      · rw [stepEvent]
        exact Or.inr hd

/-- Lower bound: along time-ordered events, every emitted detection is at
least 800 ms after the initial `lastDetectionTime`. -/
theorem runEvents_time_lb : ∀ (evs : List (RecvEvent × ℤ)) (s : RecvState),
    evs.Pairwise (fun a b => a.2 ≤ b.2) →
    (∀ p ∈ evs, s.lastDetectionTime ≤ p.2) →
    ∀ d ∈ runEvents s evs, s.lastDetectionTime + 800 ≤ d.1
  | [], _, _, _ => by simp [runEvents]
  | (e, t) :: rest, s, hpw, hlb => by
      have hpw' := List.pairwise_cons.mp hpw
      have hts : s.lastDetectionTime ≤ t := hlb (e, t) (by simp)
      have hlb' : ∀ p ∈ rest, (stepEvent e t s).1.lastDetectionTime ≤ p.2 := by
        intro p hp
        rcases stepEvent_lastDet e t s with hld | hld
        · rw [hld]; exact le_trans hts (hpw'.1 p hp)
        · rw [hld]; exact hpw'.1 p hp
      have hmono : s.lastDetectionTime ≤ (stepEvent e t s).1.lastDetectionTime := by
        rcases stepEvent_lastDet e t s with hld | hld
        · rw [hld]
        · rw [hld]; exact hts
      intro d hd
      rw [runEvents, List.mem_append] at hd
      rcases hd with hd | hd
      · rcases hstep : (stepEvent e t s).2 with _ | det
        · rw [hstep] at hd
          simp at hd
        · rw [hstep] at hd
          simp only [List.mem_singleton] at hd
          subst hd
          exact (stepEvent_detect_elim e t s det hstep).1
      · have := runEvents_time_lb rest (stepEvent e t s).1 hpw'.2 hlb' d hd
        omega

/-- Along time-ordered events, successive detections are at least 800 ms
apart. -/
theorem runEvents_chain : ∀ (evs : List (RecvEvent × ℤ)) (s : RecvState),
    evs.Pairwise (fun a b => a.2 ≤ b.2) →
    (runEvents s evs).Chain' (fun a b => a.1 + 800 ≤ b.1)
  | [], _, _ => by simp [runEvents]
  | (e, t) :: rest, s, hpw => by
      have hpw' := List.pairwise_cons.mp hpw
      rw [runEvents]
      rcases hstep : (stepEvent e t s).2 with _ | det
      · simpa using runEvents_chain rest (stepEvent e t s).1 hpw'.2
      · have hld := (stepEvent_detect_elim e t s det hstep).2
        have hlb' : ∀ p ∈ rest, (stepEvent e t s).1.lastDetectionTime ≤ p.2 := by
          intro p hp
          rw [hld]
          exact hpw'.1 p hp
        simp only [List.singleton_append]
        rw [List.chain'_cons']
        refine ⟨?_, runEvents_chain rest (stepEvent e t s).1 hpw'.2⟩
        intro y hy
        have hym : y ∈ runEvents (stepEvent e t s).1 rest := List.mem_of_mem_head? hy
        have := runEvents_time_lb rest (stepEvent e t s).1 hpw'.2 hlb' y hym
        rw [hld] at this
        exact this

/-- A below-threshold 25-sample history: stale data that the claim says any
analysis run would clear. -/
def staleState : RecvState := ⟨-100000, -100000, List.replicate 25 ⟨0, none, -100, false⟩⟩

/-- Counterexample to C5 as stated: an analysis run that passes both early
guards but finds zero pulse sequences returns with the signal history and
`lastDetectionTime` untouched — it does not clear the history. -/
theorem C5_always_clears_counterexample :
    ¬ (∀ (f : Option ℚ) (now : ℤ) (s : RecvState),
        25 ≤ s.signalHistory.length → 800 ≤ now - s.lastDetectionTime →
        (analyzeSignalPattern f now s).1.signalHistory = [] ∧
        (analyzeSignalPattern f now s).1.lastDetectionTime = now) := by
  intro hall
  have h := hall none 0 staleState (by decide) (by decide)
  have hcontra : ¬ ((analyzeSignalPattern none 0 staleState).1.signalHistory = [] ∧
      (analyzeSignalPattern none 0 staleState).1.lastDetectionTime = 0) := by decide
  exact hcontra h

/-- C5 (amended): within 800 ms of `lastDetectionTime`, `analyzeSignalPattern`
returns the state unchanged and emits nothing; a run that passes the guards
and finds at least one pulse sequence clears the history and stamps
`lastDetectionTime` (whether it matches or not); consequently along any
time-ordered event sequence, consecutive `pingDetected` events are at least
800 ms apart. -/
theorem C5_detection_cooldown :
    (∀ (f : Option ℚ) (now : ℤ) (s : RecvState),
        now - s.lastDetectionTime < 800 → analyzeSignalPattern f now s = (s, none)) ∧
    (∀ (f : Option ℚ) (now : ℤ) (s : RecvState),
        25 ≤ s.signalHistory.length → 800 ≤ now - s.lastDetectionTime →
        extractPulses f s.signalHistory ≠ [] →
        (analyzeSignalPattern f now s).1.signalHistory = [] ∧
        (analyzeSignalPattern f now s).1.lastDetectionTime = now) ∧
    (∀ (s : RecvState) (evs : List (RecvEvent × ℤ)),
        evs.Pairwise (fun a b => a.2 ≤ b.2) →
        (runEvents s evs).Chain' (fun a b => a.1 + 800 ≤ b.1)) := by
  refine ⟨fun f now s h => analyze_early_cooldown h, ?_,
    fun s evs h => runEvents_chain evs s h⟩
  intro f now s h25 hcool hp
  rw [analyzeSignalPattern, if_neg (not_lt.mpr h25), if_neg (not_lt.mpr hcool)]
  rcases hx : extractPulses f s.signalHistory with _ | ⟨p, rest⟩
  · exact absurd hx hp
  · dsimp only
    rcases hm : matchSignalPattern (p :: rest) (analyzeAmplitudePattern (p :: rest))
      with _ | ⟨mid, pat⟩
    · exact ⟨rfl, rfl⟩
    · exact ⟨rfl, rfl⟩

/-- Witness for C5: the cooldown guard, a clearing run, and the trace chain
at concrete inputs. -/
theorem C5_detection_cooldown_witness :
    analyzeSignalPattern none 0 ⟨0, -100, []⟩ = (⟨0, -100, []⟩, none) ∧
    ((analyzeSignalPattern none 900
        ⟨-10000, -10000,
          List.replicate 24 ⟨0, none, -100, false⟩ ++ [⟨5, some 700, -30, true⟩]⟩).1.signalHistory
      = [] ∧
     (analyzeSignalPattern none 900
        ⟨-10000, -10000,
          List.replicate 24 ⟨0, none, -100, false⟩ ++ [⟨5, some 700, -30, true⟩]⟩).1.lastDetectionTime
      = 900) ∧
    (runEvents ⟨0, 0, []⟩ [(.analyzeTimer none, 10)]).Chain' (fun a b => a.1 + 800 ≤ b.1) :=
  ⟨C5_detection_cooldown.1 none 0 ⟨0, -100, []⟩ (by decide),
   ⟨(C5_detection_cooldown.2.1 none 900
       ⟨-10000, -10000, List.replicate 24 ⟨0, none, -100, false⟩ ++ [⟨5, some 700, -30, true⟩]⟩
       (by decide) (by decide) (by decide)).1,
    (C5_detection_cooldown.2.1 none 900
       ⟨-10000, -10000, List.replicate 24 ⟨0, none, -100, false⟩ ++ [⟨5, some 700, -30, true⟩]⟩
       (by decide) (by decide) (by decide)).2⟩,
   C5_detection_cooldown.2.2 ⟨0, 0, []⟩ [(.analyzeTimer none, 10)] (by decide)⟩

/-- Under the self-ping window the receiver state stays at empty history
with a recent `lastSelfPingTime`, and every event inside the window
preserves that and emits no detection. -/
theorem runEvents_in_window : ∀ (evs : List (RecvEvent × ℤ)) (s : RecvState) (tE : ℤ),
    s.signalHistory = [] → tE ≤ s.lastSelfPingTime →
    (∀ p ∈ evs, tE ≤ p.2 ∧ p.2 < tE + 2500) →
    runEvents s evs = []
  | [], _, _, _, _, _ => rfl
  | (e, t) :: rest, s, tE, hh, hlsp, hev => by
      have ht := hev (e, t) (by simp)
      have hrest : ∀ p ∈ rest, tE ≤ p.2 ∧ p.2 < tE + 2500 :=
        fun p hp => hev p (by simp [hp])
      cases e with
      | frame data =>
          have hskip : onAudioFrame t data s = (s, none) :=
            onAudioFrame_skip (by omega)
          rw [runEvents]
          simp only [stepEvent, hskip]
          exact runEvents_in_window rest s tE hh hlsp hrest
      | emitted =>
          rw [runEvents]
          simp only [stepEvent, handlePingEmitted]
          exact runEvents_in_window rest ⟨t, t, []⟩ tE rfl ht.1 hrest
      | analyzeTimer bf =>
          have hshort : analyzeSignalPattern
              (orFalsy bf (getAverageFrequency s.signalHistory)) t s = (s, none) :=
            analyze_early_short (by rw [hh]; simp)
          rw [runEvents]
          simp only [stepEvent, hshort]
          exact runEvents_in_window rest s tE hh hlsp hrest

/-- C4: a frame within the 2500 ms self-ping window is a no-op; the
`pingEmitted` handler clears the history and stamps both cooldown clocks;
hence after an emission, no `pingDetected` event fires from any sequence of
events inside the self-ping window. -/
theorem C4_self_ping_suppression :
    (∀ (now : ℤ) (data : List ℚ) (s : RecvState),
        now - s.lastSelfPingTime < 2500 → onAudioFrame now data s = (s, none)) ∧
    (∀ (now : ℤ) (s : RecvState), stepEvent .emitted now s = (⟨now, now, []⟩, none)) ∧
    (∀ (s : RecvState) (tE : ℤ) (evs : List (RecvEvent × ℤ)),
        (∀ p ∈ evs, tE ≤ p.2 ∧ p.2 < tE + 2500) →
        runEvents (stepEvent .emitted tE s).1 evs = []) := by
  refine ⟨fun now data s h => onAudioFrame_skip h, fun now s => rfl, ?_⟩
  intro s tE evs hev
  exact runEvents_in_window evs ⟨tE, tE, []⟩ tE rfl le_rfl hev

/-- Witness for C4: a suppressed frame and an in-window event sequence after
an emission at time 0. -/
theorem C4_self_ping_suppression_witness :
    onAudioFrame 100 [] ⟨0, 0, []⟩ = (⟨0, 0, []⟩, none) ∧
    runEvents (stepEvent .emitted 0 ⟨5, 5, []⟩).1
      [(.frame [], 10), (.analyzeTimer none, 20), (.emitted, 30), (.frame [], 2000)] = [] :=
  ⟨C4_self_ping_suppression.1 100 [] ⟨0, 0, []⟩ (by decide),
   C4_self_ping_suppression.2.2 ⟨5, 5, []⟩ 0
     [(.frame [], 10), (.analyzeTimer none, 20), (.emitted, 30), (.frame [], 2000)]
     (by decide)⟩

end Ping
